import Mathlib

/-!
# Verification of the cesium-geojson upload/retrieve server

Shallow embedding of the Express server in `server.js` (the only server
source file): a GeoJSON upload API that validates a document with a zod
schema, persists it to disk under a generated identifier, and serves it
back by identifier.

Modelling conventions:

* JSON values are the inductive `Json` below.  JSON numbers are modelled
  as integers (`Int`): the server performs no arithmetic on numbers, and
  the only number-relevant operations are `JSON.stringify`/`JSON.parse`,
  whose decimal round-trip we model on integers (IEEE-754 doubles have no
  faithful shallow embedding, and none of the claims depends on
  non-integer numerics).
* `JSON.stringify(v)` and `JSON.stringify(v, null, 2)` are implemented
  character-for-character (`strVal false`/`strVal true`) following the
  ECMA-262 serialization algorithm, including string escaping.
* `JSON.parse` is the fuel-indexed recursive-descent parser `parseVal`
  (fuel only bounds nesting depth; `jsonParse` supplies enough for any
  input it is given).
* The filesystem is an association list from normalized absolute paths
  (segment lists) to file contents; `path.join` followed by the kernel's
  path resolution is `joinPath`/`normSegs`.
* Express route parameters are percent-decoded before the handler runs,
  so the `:id` parameter reaching the retrieval handler is an arbitrary
  string that may contain `/` and `.` characters.
-/

namespace CesiumGeojson

mutual

/-- JSON values.  `JArr`/`JObj` are mutually inductive spine types for
arrays and objects so that all recursions and inductions are structural. -/
inductive Json where
  | null : Json
  | bool : Bool → Json
  | num : Int → Json
  | str : String → Json
  | arr : JArr → Json
  | obj : JObj → Json

/-- Spine of a JSON array. -/
inductive JArr where
  | nil : JArr
  | cons : Json → JArr → JArr

/-- Spine of a JSON object: ordered key/value members. -/
inductive JObj where
  | nil : JObj
  | cons : String → Json → JObj → JObj

end

mutual

def Json.beq : Json → Json → Bool
  | .null, .null => true
  | .bool a, .bool b => a == b
  | .num a, .num b => a == b
  | .str a, .str b => a == b
  | .arr a, .arr b => JArr.beq a b
  | .obj a, .obj b => JObj.beq a b
  | _, _ => false

def JArr.beq : JArr → JArr → Bool
  | .nil, .nil => true
  | .cons a as, .cons b bs => Json.beq a b && JArr.beq as bs
  | _, _ => false

def JObj.beq : JObj → JObj → Bool
  | .nil, .nil => true
  | .cons k v tl, .cons k' v' tl' => k == k' && Json.beq v v' && JObj.beq tl tl'
  | _, _ => false

end

mutual

theorem beq_iff_json : ∀ a b : Json, Json.beq a b = true ↔ a = b
  | .null, b => by cases b <;> simp [Json.beq]
  | .bool x, b => by cases b <;> simp [Json.beq]
  | .num x, b => by cases b <;> simp [Json.beq]
  | .str x, b => by cases b <;> simp [Json.beq]
  | .arr x, b => by
      cases b <;> simp [Json.beq]
      exact beq_iff_jarr x _
  | .obj x, b => by
      cases b <;> simp [Json.beq]
      exact beq_iff_jobj x _

theorem beq_iff_jarr : ∀ a b : JArr, JArr.beq a b = true ↔ a = b
  | .nil, b => by cases b <;> simp [JArr.beq]
  | .cons x xs, b => by
      cases b <;> simp [JArr.beq]
      exact and_congr (beq_iff_json x _) (beq_iff_jarr xs _)

theorem beq_iff_jobj : ∀ a b : JObj, JObj.beq a b = true ↔ a = b
  | .nil, b => by cases b <;> simp [JObj.beq]
  | .cons k v tl, b => by
      cases b <;> simp [JObj.beq, and_assoc]
      exact fun _ => and_congr (beq_iff_json v _) (beq_iff_jobj tl _)

end

instance : DecidableEq Json := fun a b =>
  decidable_of_iff (Json.beq a b = true) (beq_iff_json a b)

instance : DecidableEq JArr := fun a b =>
  decidable_of_iff (JArr.beq a b = true) (beq_iff_jarr a b)

instance : DecidableEq JObj := fun a b =>
  decidable_of_iff (JObj.beq a b = true) (beq_iff_jobj a b)

/-- Member lookup, as JavaScript property access `data[key]` on an object
produced by `JSON.parse` (first occurrence wins). -/
def JObj.find? : JObj → String → Option Json
  | .nil, _ => none
  | .cons k v tl, key => if k = key then some v else JObj.find? tl key

/-- The member keys of an object, in order. -/
def JObj.keys : JObj → List String
  | .nil => []
  | .cons k _ tl => k :: JObj.keys tl

mutual

/-- Size measure used as a fuel bound for the parser. -/
def Json.size : Json → Nat
  | .arr a => JArr.size a + 1
  | .obj o => JObj.size o + 1
  | _ => 1

def JArr.size : JArr → Nat
  | .nil => 1
  | .cons v tl => Json.size v + JArr.size tl

def JObj.size : JObj → Nat
  | .nil => 1
  | .cons _ v tl => Json.size v + JObj.size tl

end

/-! ## `JSON.stringify`

`strVal false 0 v` is `JSON.stringify(v)` (used for the request body on
the JSON upload path, line 116 of the server) and `strVal true 0 v` is
`JSON.stringify(v, null, 2)` (used when persisting, line 140), following
the ECMA-262 `SerializeJSONProperty` algorithm with gap `""` resp. two
spaces.  Output is a character list; `'\x7b'`-style braces are written
via `Char.ofNat` to keep the development plain ASCII. -/

def lbrace : Char := Char.ofNat 123

def rbrace : Char := Char.ofNat 125

/-- Lowercase hexadecimal digit, as emitted by `QuoteJSONString`. -/
def hexDigitChar (n : Nat) : Char :=
  if n < 10 then Char.ofNat (48 + n) else Char.ofNat (87 + n)

/-- Escape one character of a JSON string (ECMA-262 `QuoteJSONString`):
quote and backslash get a backslash escape, the five C0 controls with
shorthand escapes use them, all other C0 controls become `\u00XX`, and
everything else is emitted literally. -/
def escChar (c : Char) : List Char :=
  if c = '"' then ['\\', '"']
  else if c = '\\' then ['\\', '\\']
  else if c = '\n' then ['\\', 'n']
  else if c = '\r' then ['\\', 'r']
  else if c = '\t' then ['\\', 't']
  else if c = Char.ofNat 8 then ['\\', 'b']
  else if c = Char.ofNat 12 then ['\\', 'f']
  else if c.toNat < 32 then
    ['\\', 'u', '0', '0', hexDigitChar (c.toNat / 16), hexDigitChar (c.toNat % 16)]
  else [c]

def escStr : List Char → List Char
  | [] => []
  | c :: r => escChar c ++ escStr r

/-- A double-quoted, escaped JSON string literal. -/
def quoteStr (s : String) : List Char := '"' :: (escStr s.data ++ ['"'])

def digitChar (n : Nat) : Char := Char.ofNat (48 + n)

/-- The keyword tokens of JSON scalars. -/
def nullChars : List Char := ['n', 'u', 'l', 'l']

def trueChars : List Char := ['t', 'r', 'u', 'e']

def falseChars : List Char := ['f', 'a', 'l', 's', 'e']

/-- Decimal digits of a natural number, most significant first.
Fuel-indexed so that kernel reduction works; `natDigits` supplies
sufficient fuel. -/
def natDigitsAux : Nat → Nat → List Char → List Char
  | 0, _, acc => acc
  | f + 1, n, acc =>
    if n < 10 then digitChar n :: acc
    else natDigitsAux f (n / 10) (digitChar (n % 10) :: acc)

def natDigits (n : Nat) : List Char := natDigitsAux (n + 1) n []

/-- Decimal notation of an integer, as `JSON.stringify` prints an
integral number. -/
def intDigits (i : Int) : List Char :=
  if i < 0 then '-' :: natDigits i.natAbs else natDigits i.natAbs

def indentChars (n : Nat) : List Char := List.replicate n ' '

/-- Line break plus indentation emitted after an opening bracket (and
before a closing one) in pretty mode; nothing in compact mode. -/
def openGap (p : Bool) (d : Nat) : List Char :=
  if p then '\n' :: indentChars (2 * d) else []

/-- Separator between members: `",\n" ++ indent` in pretty mode, `","`
in compact mode. -/
def sepGap (p : Bool) (d : Nat) : List Char :=
  ',' :: openGap p d

/-- Key/value separator: `": "` in pretty mode, `":"` in compact mode. -/
def colonGap (p : Bool) : List Char :=
  ':' :: (if p then [' '] else [])

mutual

/-- `JSON.stringify` of a value, at nesting depth `d`; `p` selects the
pretty (`, null, 2`) format. -/
def strVal (p : Bool) (d : Nat) : Json → List Char
  | .null => nullChars
  | .bool true => trueChars
  | .bool false => falseChars
  | .num i => intDigits i
  | .str s => quoteStr s
  | .arr .nil => ['[', ']']
  | .arr (.cons v tl) =>
    '[' :: (openGap p (d + 1) ++ strVal p (d + 1) v ++ strArrTail p d tl)
  | .obj .nil => [lbrace, rbrace]
  | .obj (.cons k v tl) =>
    lbrace ::
      (openGap p (d + 1) ++ quoteStr k ++ colonGap p ++ strVal p (d + 1) v ++ strObjTail p d tl)

/-- Remaining members of a non-empty array, including the closing
bracket. -/
def strArrTail (p : Bool) (d : Nat) : JArr → List Char
  | .nil => openGap p d ++ [']']
  | .cons v tl => sepGap p (d + 1) ++ strVal p (d + 1) v ++ strArrTail p d tl

/-- Remaining members of a non-empty object, including the closing
brace. -/
def strObjTail (p : Bool) (d : Nat) : JObj → List Char
  | .nil => openGap p d ++ [rbrace]
  | .cons k v tl =>
    sepGap p (d + 1) ++ quoteStr k ++ colonGap p ++ strVal p (d + 1) v ++ strObjTail p d tl

end

/-- `JSON.stringify(v)` as a string. -/
def stringifyCompact (v : Json) : String := String.mk (strVal false 0 v)

/-- `JSON.stringify(v, null, 2)` as a string. -/
def stringifyPretty (v : Json) : String := String.mk (strVal true 0 v)

example :
    strVal false 0 (.arr (.cons .null (.cons (.num (-12)) .nil))) =
      ('[' :: ('n' :: 'u' :: 'l' :: 'l' :: ',' :: '-' :: '1' :: '2' :: [']'])) := by
  decide

example :
    stringifyPretty (.obj (.cons "a" (.num 3) .nil)) =
      String.mk
        (lbrace :: '\n' :: ' ' :: ' ' :: '"' :: 'a' :: '"' :: ':' :: ' ' :: '3' :: '\n' ::
          [rbrace]) := by
  decide

/-! ## `JSON.parse`

A recursive-descent parser for JSON text (restricted to the integer
subset of JSON numbers, matching the `Json` model).  The fuel argument
only bounds the nesting depth of values; `jsonParse` supplies
`length + 1` fuel, which the round-trip theorems show is always enough
for text produced by `JSON.stringify`. -/

def isWsChar (c : Char) : Bool :=
  c = ' ' || c = '\n' || c = '\t' || c = '\r'

def skipWs (s : List Char) : List Char := s.dropWhile isWsChar

def isHexChar (c : Char) : Bool :=
  ('0' ≤ c && c ≤ '9') || ('a' ≤ c && c ≤ 'f') || ('A' ≤ c && c ≤ 'F')

def hexVal (c : Char) : Nat :=
  if c ≤ '9' then c.toNat - 48 else if c ≤ 'F' then c.toNat - 55 else c.toNat - 87

/-- The single-character escapes of JSON strings. -/
def unescSimple (c : Char) : Option Char :=
  if c = '"' then some '"'
  else if c = '\\' then some '\\'
  else if c = '/' then some '/'
  else if c = 'n' then some '\n'
  else if c = 'r' then some '\r'
  else if c = 't' then some '\t'
  else if c = 'b' then some (Char.ofNat 8)
  else if c = 'f' then some (Char.ofNat 12)
  else none

/-- Parse the remainder of a string literal (after the opening quote),
accumulating decoded characters in reverse. -/
def parseStrAux : List Char → List Char → Option (String × List Char)
  | [], _ => none
  | c :: rest, acc =>
    if c = '"' then some (String.mk acc.reverse, rest)
    else if c = '\\' then
      match rest with
      | [] => none
      | e :: rest' =>
        if e = 'u' then
          match rest' with
          | [] => none
          | h1 :: t1 =>
            match t1 with
            | [] => none
            | h2 :: t2 =>
              match t2 with
              | [] => none
              | h3 :: t3 =>
                match t3 with
                | [] => none
                | h4 :: rest'' =>
                  if isHexChar h1 && isHexChar h2 && isHexChar h3 && isHexChar h4 then
                    parseStrAux rest''
                      (Char.ofNat
                        (((hexVal h1 * 16 + hexVal h2) * 16 + hexVal h3) * 16 + hexVal h4) :: acc)
                  else none
        else
          match unescSimple e with
          | some c' => parseStrAux rest' (c' :: acc)
          | none => none
    else parseStrAux rest (c :: acc)

def digitVal (c : Char) : Nat := c.toNat - 48

def digitsVal (l : List Char) : Nat :=
  l.foldl (fun a c => a * 10 + digitVal c) 0

/-- Parse a run of decimal digits as a natural number. -/
def parseNatNum (s : List Char) : Option (Nat × List Char) :=
  let ds := s.takeWhile (fun c => c.isDigit)
  let r := s.dropWhile (fun c => c.isDigit)
  if ds.isEmpty then none else some (digitsVal ds, r)

mutual

/-- Parse one JSON value (after skipping leading whitespace). -/
def parseVal : Nat → List Char → Option (Json × List Char)
  | 0, _ => none
  | f + 1, s =>
    match skipWs s with
    | 'n' :: 'u' :: 'l' :: 'l' :: r => some (.null, r)
    | 't' :: 'r' :: 'u' :: 'e' :: r => some (.bool true, r)
    | 'f' :: 'a' :: 'l' :: 's' :: 'e' :: r => some (.bool false, r)
    | '"' :: r => (parseStrAux r []).map (fun q => (.str q.1, q.2))
    | '[' :: r =>
      (match skipWs r with
        | ']' :: r' => some (.arr .nil, r')
        | _ => (parseItems f r).map (fun q => (.arr q.1, q.2)))
    | '-' :: r => (parseNatNum r).map (fun q => (.num (-(q.1 : Int)), q.2))
    | c :: r =>
      if c = lbrace then
        match skipWs r with
        | c' :: r' =>
          if c' = rbrace then some (.obj .nil, r')
          else (parseMembers f r).map (fun q => (.obj q.1, q.2))
        | [] => none
      else if c.isDigit then (parseNatNum (c :: r)).map (fun q => (.num (q.1 : Int), q.2))
      else none
    | [] => none

/-- Parse the elements of a non-empty array, up to and including the
closing bracket. -/
def parseItems : Nat → List Char → Option (JArr × List Char)
  | 0, _ => none
  | f + 1, s =>
    match parseVal f s with
    | none => none
    | some (v, r) =>
      match skipWs r with
      | ',' :: r' => (parseItems f r').map (fun q => (.cons v q.1, q.2))
      | ']' :: r' => some (.cons v .nil, r')
      | _ => none

/-- Parse the members of a non-empty object, up to and including the
closing brace. -/
def parseMembers : Nat → List Char → Option (JObj × List Char)
  | 0, _ => none
  | f + 1, s =>
    match skipWs s with
    | '"' :: r =>
      (match parseStrAux r [] with
        | none => none
        | some (k, r1) =>
          match skipWs r1 with
          | ':' :: r2 =>
            (match parseVal f r2 with
              | none => none
              | some (v, r3) =>
                match skipWs r3 with
                | ',' :: r4 => (parseMembers f r4).map (fun q => (.cons k v q.1, q.2))
                | c :: r4 => if c = rbrace then some (.cons k v .nil, r4) else none
                | [] => none)
          | _ => none)
    | _ => none

end

/-- `JSON.parse(s)`: parse one value and require only whitespace after
it. -/
def jsonParse (s : String) : Option Json :=
  match parseVal (s.length + 1) s.data with
  | some (v, rest) => if skipWs rest = [] then some v else none
  | none => none

example : jsonParse (String.mk ('[' :: '1' :: ',' :: ' ' :: '2' :: [']'])) =
    some (.arr (.cons (.num 1) (.cons (.num 2) .nil))) := by decide

example : jsonParse "[1, 2" = none := by decide

/-! ## Round-trip: `JSON.parse ∘ JSON.stringify = id`

This is the correctness backbone for the round-trip and
unreachable-branch claims: parsing the output of either serialization
format recovers the original value exactly. -/

def AllWs (w : List Char) : Prop := ∀ c ∈ w, isWsChar c = true

/-- `s` does not start with a decimal digit (needed so that a printed
number is not extended by following text). -/
def HeadNd (s : List Char) : Prop := ∀ c cs, s = c :: cs → c.isDigit = false

theorem skipWs_cons_ws {c : Char} (s : List Char) (h : isWsChar c = true) :
    skipWs (c :: s) = skipWs s := by
  simp [skipWs, List.dropWhile, h]

theorem skipWs_cons_not {c : Char} (s : List Char) (h : isWsChar c = false) :
    skipWs (c :: s) = c :: s := by
  simp [skipWs, List.dropWhile, h]

theorem skipWs_append : ∀ (w s : List Char), AllWs w → skipWs (w ++ s) = skipWs s
  | [], _, _ => rfl
  | c :: w, s, h => by
    rw [List.cons_append, skipWs_cons_ws _ (h c (by simp))]
    exact skipWs_append w s fun c' hc' => h c' (by simp [hc'])

theorem allWs_nil : AllWs [] := fun c hc => absurd hc (List.not_mem_nil c)

theorem allWs_indent (n : Nat) : AllWs (indentChars n) := by
  intro c hc
  rw [List.eq_of_mem_replicate hc]
  decide

theorem allWs_openGap (p : Bool) (d : Nat) : AllWs (openGap p d) := by
  cases p with
  | false => exact allWs_nil
  | true =>
    intro c hc
    rcases List.mem_cons.1 hc with h | h
    · subst h; decide
    · exact allWs_indent _ c h

theorem allWs_spaceIf (p : Bool) : AllWs (if p then [' '] else []) := by
  cases p with
  | false => exact allWs_nil
  | true =>
    intro c hc
    rw [List.mem_singleton.1 hc]
    decide

theorem headNd_nil : HeadNd [] := fun _ _ h => by cases h

theorem headNd_cons {c : Char} (s : List Char) (h : c.isDigit = false) :
    HeadNd (c :: s) := by
  intro c' cs' h'
  cases h'
  exact h

theorem isDigit_not_ws {c : Char} (h : c.isDigit = true) : isWsChar c = false := by
  cases hw : isWsChar c with
  | false => rfl
  | true =>
    have hmem : c = ' ' ∨ c = '\n' ∨ c = '\t' ∨ c = '\r' := by
      simpa [isWsChar, or_assoc] using hw
    rcases hmem with h1 | h1 | h1 | h1 <;> subst h1 <;> exact absurd h (by decide)

theorem isDigit_ne_of {c d : Char} (h : c.isDigit = true) (hd : d.isDigit = false) : c ≠ d := by
  intro he
  subst he
  rw [h] at hd
  cases hd

/-! ### Decimal digits -/

theorem digitVal_digitChar : ∀ n, n < 10 → digitVal (digitChar n) = n := by decide

theorem digitChar_isDigit : ∀ n, n < 10 → (digitChar n).isDigit = true := by decide

theorem natDigitsAux_append : ∀ (f n : Nat) (acc : List Char),
    natDigitsAux f n acc = natDigitsAux f n [] ++ acc
  | 0, _, _ => rfl
  | f + 1, n, acc => by
    by_cases h : n < 10
    · simp [natDigitsAux, h]
    · rw [natDigitsAux, natDigitsAux, if_neg h, if_neg h,
        natDigitsAux_append f (n / 10) (digitChar (n % 10) :: acc),
        natDigitsAux_append f (n / 10) [digitChar (n % 10)], List.append_assoc]
      rfl

theorem digitsVal_append_singleton (A : List Char) (d : Char) :
    digitsVal (A ++ [d]) = digitsVal A * 10 + digitVal d := by
  simp [digitsVal, List.foldl_append]

theorem natDigitsAux_spec : ∀ (f n : Nat), n < f →
    digitsVal (natDigitsAux f n []) = n ∧
      (∀ c ∈ natDigitsAux f n [], c.isDigit = true) ∧ natDigitsAux f n [] ≠ []
  | 0, _, h => absurd h (Nat.not_lt_zero _)
  | f + 1, n, h => by
    by_cases h10 : n < 10
    · refine ⟨?_, ?_, ?_⟩
      · simp [natDigitsAux, h10, digitsVal, digitVal_digitChar n h10]
      · intro c hc
        rw [natDigitsAux, if_pos h10] at hc
        rw [List.mem_singleton.1 hc]
        exact digitChar_isDigit n h10
      · simp [natDigitsAux, h10]
    · have hn : 0 < n := by omega
      have hdiv : n / 10 < n := Nat.div_lt_self hn (by omega)
      have hf : n / 10 < f := by omega
      obtain ⟨ih1, ih2, ih3⟩ := natDigitsAux_spec f (n / 10) hf
      rw [natDigitsAux, if_neg h10, natDigitsAux_append]
      have hmod : n % 10 < 10 := Nat.mod_lt n (by omega)
      refine ⟨?_, ?_, ?_⟩
      · rw [digitsVal_append_singleton, ih1, digitVal_digitChar _ hmod]
        omega
      · intro c hc
        rcases List.mem_append.1 hc with hc | hc
        · exact ih2 c hc
        · rw [List.mem_singleton.1 hc]
          exact digitChar_isDigit _ hmod
      · simp

theorem natDigits_spec (n : Nat) :
    digitsVal (natDigits n) = n ∧ (∀ c ∈ natDigits n, c.isDigit = true) ∧ natDigits n ≠ [] :=
  natDigitsAux_spec (n + 1) n (Nat.lt_succ_self n)

theorem takeWhile_digits : ∀ (A rest : List Char), (∀ c ∈ A, c.isDigit = true) → HeadNd rest →
    (A ++ rest).takeWhile (fun c => c.isDigit) = A ∧
      (A ++ rest).dropWhile (fun c => c.isDigit) = rest
  | [], rest, _, hr => by
    cases rest with
    | nil => exact ⟨rfl, rfl⟩
    | cons c cs =>
      have := hr c cs rfl
      constructor <;> simp [List.takeWhile, List.dropWhile, this]
  | a :: A, rest, hA, hr => by
    have ha : a.isDigit = true := hA a (by simp)
    obtain ⟨ih1, ih2⟩ := takeWhile_digits A rest (fun c hc => hA c (by simp [hc])) hr
    constructor <;> simp [List.takeWhile, List.dropWhile, ha, ih1, ih2]

theorem parseNatNum_digits (A rest : List Char) (hA : ∀ c ∈ A, c.isDigit = true)
    (hne : A ≠ []) (hr : HeadNd rest) :
    parseNatNum (A ++ rest) = some (digitsVal A, rest) := by
  obtain ⟨h1, h2⟩ := takeWhile_digits A rest hA hr
  simp [parseNatNum, h1, h2, hne]

theorem parseNatNum_natDigits (n : Nat) (rest : List Char) (hr : HeadNd rest) :
    parseNatNum (natDigits n ++ rest) = some (n, rest) := by
  obtain ⟨h1, h2, h3⟩ := natDigits_spec n
  rw [parseNatNum_digits (natDigits n) rest h2 h3 hr, h1]

/-! ### String literals -/

theorem isHexChar_hexDigitChar : ∀ n, n < 16 → isHexChar (hexDigitChar n) = true := by decide

theorem hexVal_hexDigitChar : ∀ n, n < 16 → hexVal (hexDigitChar n) = n := by decide

theorem parseStrAux_escChar (c : Char) (m acc : List Char) :
    parseStrAux (escChar c ++ m) acc = parseStrAux m (c :: acc) := by
  by_cases h1 : c = '"'
  · subst h1; rw [escChar]; simp only [if_pos rfl, List.cons_append, List.nil_append]
    rw [parseStrAux.eq_def]; simp [unescSimple]
  by_cases h2 : c = '\\'
  · subst h2; rw [escChar, if_neg h1]; simp only [if_pos rfl, List.cons_append, List.nil_append]
    rw [parseStrAux.eq_def]; simp [unescSimple]
  by_cases h3 : c = '\n'
  · subst h3; rw [escChar, if_neg h1, if_neg h2]
    simp only [if_pos rfl, List.cons_append, List.nil_append]
    rw [parseStrAux.eq_def]; simp [unescSimple]
  by_cases h4 : c = '\r'
  · subst h4; rw [escChar, if_neg h1, if_neg h2, if_neg h3]
    simp only [if_pos rfl, List.cons_append, List.nil_append]
    rw [parseStrAux.eq_def]; simp [unescSimple]
  by_cases h5 : c = '\t'
  · subst h5; rw [escChar, if_neg h1, if_neg h2, if_neg h3, if_neg h4]
    simp only [if_pos rfl, List.cons_append, List.nil_append]
    rw [parseStrAux.eq_def]; simp [unescSimple]
  by_cases h6 : c = Char.ofNat 8
  · subst h6; rw [escChar, if_neg h1, if_neg h2, if_neg h3, if_neg h4, if_neg h5]
    simp only [if_pos rfl, List.cons_append, List.nil_append]
    rw [parseStrAux.eq_def]; simp [unescSimple]
  by_cases h7 : c = Char.ofNat 12
  · subst h7; rw [escChar, if_neg h1, if_neg h2, if_neg h3, if_neg h4, if_neg h5, if_neg h6]
    simp only [if_pos rfl, List.cons_append, List.nil_append]
    rw [parseStrAux.eq_def]; simp [unescSimple]
  by_cases h8 : c.toNat < 32
  · have hdiv : c.toNat / 16 < 16 := by omega
    have hmod : c.toNat % 16 < 16 := Nat.mod_lt _ (by omega)
    rw [escChar, if_neg h1, if_neg h2, if_neg h3, if_neg h4, if_neg h5, if_neg h6, if_neg h7,
      if_pos h8]
    simp only [List.cons_append, List.nil_append]
    rw [parseStrAux.eq_def]
    simp only [if_neg (by decide : ¬('\\' : Char) = '"'), if_pos rfl,
      isHexChar_hexDigitChar _ hdiv, isHexChar_hexDigitChar _ hmod,
      (by decide : isHexChar '0' = true), Bool.and_self, Bool.and_true, Bool.true_and,
      if_pos rfl]
    have hval : ((hexVal '0' * 16 + hexVal '0') * 16 + hexVal (hexDigitChar (c.toNat / 16))) * 16 +
        hexVal (hexDigitChar (c.toNat % 16)) = c.toNat := by
      rw [hexVal_hexDigitChar _ hdiv, hexVal_hexDigitChar _ hmod,
        (by decide : hexVal '0' = 0)]
      omega
    rw [hval, Char.ofNat_toNat]
    simp
  · rw [escChar, if_neg h1, if_neg h2, if_neg h3, if_neg h4, if_neg h5, if_neg h6, if_neg h7,
      if_neg h8, List.singleton_append, parseStrAux.eq_def]
    simp [h1, h2]

theorem parseStrAux_escStr : ∀ (l acc rest : List Char),
    parseStrAux (escStr l ++ ('"' :: rest)) acc = some (String.mk (acc.reverse ++ l), rest)
  | [], acc, rest => by
    rw [escStr, List.nil_append, parseStrAux.eq_def]
    simp
  | c :: l, acc, rest => by
    rw [escStr, List.append_assoc, parseStrAux_escChar, parseStrAux_escStr l (c :: acc) rest]
    simp

/-! ### Head-character facts for printed values -/

theorem size_pos_jarr : ∀ a : JArr, 1 ≤ JArr.size a
  | .nil => le_refl 1
  | .cons v tl => by
    have h := size_pos_jarr tl
    simp only [JArr.size]
    omega

theorem size_pos_jobj : ∀ o : JObj, 1 ≤ JObj.size o
  | .nil => le_refl 1
  | .cons k v tl => by
    have h := size_pos_jobj tl
    simp only [JObj.size]
    omega

theorem size_pos : (∀ v : Json, 1 ≤ Json.size v) ∧ (∀ a : JArr, 1 ≤ JArr.size a) ∧
    (∀ o : JObj, 1 ≤ JObj.size o) := by
  refine ⟨fun v => ?_, size_pos_jarr, size_pos_jobj⟩
  cases v <;> simp [Json.size, JArr.size, JObj.size]

theorem natDigits_head (n : Nat) :
    ∃ c cs, natDigits n = c :: cs ∧ c.isDigit = true := by
  obtain ⟨-, h2, h3⟩ := natDigits_spec n
  cases hnd : natDigits n with
  | nil => exact absurd hnd h3
  | cons c cs => exact ⟨c, cs, rfl, h2 c (by rw [hnd]; simp)⟩

theorem strVal_head (p : Bool) (d : Nat) (v : Json) :
    ∃ c cs, strVal p d v = c :: cs ∧ isWsChar c = false ∧ ¬c = ']' := by
  cases v with
  | null => exact ⟨'n', _, rfl, by decide, by decide⟩
  | bool b => cases b with
    | true => exact ⟨'t', _, rfl, by decide, by decide⟩
    | false => exact ⟨'f', _, rfl, by decide, by decide⟩
  | num i =>
    rw [strVal, intDigits]
    by_cases hi : i < 0
    · rw [if_pos hi]
      exact ⟨'-', _, rfl, by decide, by decide⟩
    · rw [if_neg hi]
      obtain ⟨c, cs, hcs, hc⟩ := natDigits_head i.natAbs
      exact ⟨c, cs, hcs, isDigit_not_ws hc, isDigit_ne_of hc (by decide)⟩
  | str s => exact ⟨'"', _, rfl, by decide, by decide⟩
  | arr a => cases a with
    | nil => exact ⟨'[', _, rfl, by decide, by decide⟩
    | cons v tl => exact ⟨'[', _, rfl, by decide, by decide⟩
  | obj o => cases o with
    | nil => exact ⟨lbrace, _, rfl, by decide, by decide⟩
    | cons k v tl => exact ⟨lbrace, _, rfl, by decide, by decide⟩

theorem headNd_strArrTail (p : Bool) (d : Nat) (tl : JArr) (rest : List Char) :
    HeadNd (strArrTail p d tl ++ rest) := by
  cases tl with
  | nil =>
    cases p with
    | false =>
      rw [strArrTail]
      simp only [openGap, Bool.false_eq_true, if_false, List.nil_append, List.singleton_append]
      exact headNd_cons _ (by decide)
    | true =>
      rw [strArrTail]
      simp only [openGap, if_pos rfl, List.cons_append]
      exact headNd_cons _ (by decide)
  | cons v tl =>
    rw [strArrTail]
    simp only [sepGap, List.cons_append]
    exact headNd_cons _ (by decide)

theorem headNd_strObjTail (p : Bool) (d : Nat) (tl : JObj) (rest : List Char) :
    HeadNd (strObjTail p d tl ++ rest) := by
  cases tl with
  | nil =>
    cases p with
    | false =>
      rw [strObjTail]
      simp only [openGap, Bool.false_eq_true, if_false, List.nil_append, List.singleton_append]
      exact headNd_cons _ (by decide)
    | true =>
      rw [strObjTail]
      simp only [openGap, if_pos rfl, List.cons_append]
      exact headNd_cons _ (by decide)
  | cons k v tl =>
    rw [strObjTail]
    simp only [sepGap, List.cons_append]
    exact headNd_cons _ (by decide)

/-! ### The round-trip proper -/

theorem skipWs_strVal_head {l : List Char} {c0 : Char} {cs0 : List Char}
    (hc0 : l = c0 :: cs0) (hws0 : isWsChar c0 = false) (X : List Char) :
    skipWs (l ++ X) = l ++ X := by
  rw [hc0, List.cons_append, skipWs_cons_not _ hws0]

mutual

theorem parse_strVal : ∀ (f : Nat) (v : Json) (p : Bool) (d : Nat) (w rest : List Char),
    AllWs w → HeadNd rest → Json.size v ≤ f →
    parseVal f (w ++ (strVal p d v ++ rest)) = some (v, rest)
  | 0, v, _, _, _, _, _, _, hs => absurd hs (by have := size_pos.1 v; omega)
  | f + 1, .null, p, d, w, rest, hw, _, _ => by
    have hskip : ∀ s, skipWs (w ++ s) = skipWs s := fun s => skipWs_append w s hw
    rw [parseVal.eq_def]
    simp [strVal, nullChars, hskip, skipWs_cons_not, isWsChar]
  | f + 1, .bool true, p, d, w, rest, hw, _, _ => by
    have hskip : ∀ s, skipWs (w ++ s) = skipWs s := fun s => skipWs_append w s hw
    rw [parseVal.eq_def]
    simp [strVal, trueChars, hskip, skipWs_cons_not, isWsChar]
  | f + 1, .bool false, p, d, w, rest, hw, _, _ => by
    have hskip : ∀ s, skipWs (w ++ s) = skipWs s := fun s => skipWs_append w s hw
    rw [parseVal.eq_def]
    simp [strVal, falseChars, hskip, skipWs_cons_not, isWsChar]
  | f + 1, .num i, p, d, w, rest, hw, hr, _ => by
    have hskip : ∀ s, skipWs (w ++ s) = skipWs s := fun s => skipWs_append w s hw
    have hnum := parseNatNum_natDigits i.natAbs rest hr
    by_cases hi : i < 0
    · rw [parseVal.eq_def, strVal, intDigits, if_pos hi]
      simp [hskip, skipWs_cons_not, isWsChar, hnum]
      rw [abs_of_neg hi, neg_neg]
    · obtain ⟨c, cs, hcs, hc⟩ := natDigits_head i.natAbs
      have hws : isWsChar c = false := isDigit_not_ws hc
      have h1 : ¬c = 'n' := isDigit_ne_of hc (by decide)
      have h2 : ¬c = 't' := isDigit_ne_of hc (by decide)
      have h3 : ¬c = 'f' := isDigit_ne_of hc (by decide)
      have h4 : ¬c = '"' := isDigit_ne_of hc (by decide)
      have h5 : ¬c = '[' := isDigit_ne_of hc (by decide)
      have h6 : ¬c = '-' := isDigit_ne_of hc (by decide)
      have h7 : ¬c = lbrace := isDigit_ne_of hc (by decide)
      have hpos : ((i.natAbs : Nat) : Int) = i := by omega
      rw [hcs, List.cons_append] at hnum
      rw [parseVal.eq_def, strVal, intDigits, if_neg hi, hcs]
      rw [List.cons_append]
      simp [hskip, skipWs_cons_not, hws, h1, h2, h3, h4, h5, h6, h7, hc]
      exact ⟨i.natAbs, hnum, hpos⟩
  | f + 1, .str s, p, d, w, rest, hw, _, _ => by
    have hskip : ∀ s, skipWs (w ++ s) = skipWs s := fun s => skipWs_append w s hw
    have hmk : String.mk s.data = s := rfl
    rw [parseVal.eq_def, strVal, quoteStr]
    simp only [List.cons_append, List.append_assoc, List.singleton_append]
    simp [hskip, skipWs_cons_not, isWsChar, parseStrAux_escStr, hmk]
  | f + 1, .arr .nil, p, d, w, rest, hw, _, _ => by
    have hskip : ∀ s, skipWs (w ++ s) = skipWs s := fun s => skipWs_append w s hw
    rw [parseVal.eq_def]
    simp [strVal, hskip, skipWs_cons_not, isWsChar]
  | f + 1, .arr (.cons v tl), p, d, w, rest, hw, hr, hs => by
    have hskip : ∀ s, skipWs (w ++ s) = skipWs s := fun s => skipWs_append w s hw
    have hgap : ∀ s, skipWs (openGap p (d + 1) ++ s) = skipWs s :=
      fun s => skipWs_append _ s (allWs_openGap p (d + 1))
    obtain ⟨c0, cs0, hc0, hws0, hne0⟩ := strVal_head p (d + 1) v
    have harith : Json.size v + JArr.size tl ≤ f := by
      simp only [Json.size, JArr.size] at hs
      omega
    have hitems :=
      parse_strItems f v tl p d (openGap p (d + 1)) rest (allWs_openGap p (d + 1)) hr harith
    rw [parseVal.eq_def, strVal]
    simp only [List.cons_append, List.append_assoc, hskip,
      skipWs_cons_not _ (by decide : isWsChar '[' = false), hgap, skipWs_strVal_head hc0 hws0]
    split
    next heq =>
      exfalso
      rw [hc0, List.cons_append] at heq
      exact hne0 (List.cons.inj heq).1
    next =>
      rw [hitems]
      simp
  | f + 1, .obj .nil, p, d, w, rest, hw, _, _ => by
    have hskip : ∀ s, skipWs (w ++ s) = skipWs s := fun s => skipWs_append w s hw
    have hL1 : ¬lbrace = 'n' := by decide
    have hL2 : ¬lbrace = 't' := by decide
    have hL3 : ¬lbrace = 'f' := by decide
    have hL4 : ¬lbrace = '"' := by decide
    have hL5 : ¬lbrace = '[' := by decide
    have hL6 : ¬lbrace = '-' := by decide
    rw [parseVal.eq_def]
    simp [strVal, hskip, skipWs_cons_not _ (by decide : isWsChar lbrace = false),
      skipWs_cons_not _ (by decide : isWsChar rbrace = false), hL1, hL2, hL3, hL4, hL5, hL6]
  | f + 1, .obj (.cons k v tl), p, d, w, rest, hw, hr, hs => by
    have hskip : ∀ s, skipWs (w ++ s) = skipWs s := fun s => skipWs_append w s hw
    have hgap : ∀ s, skipWs (openGap p (d + 1) ++ s) = skipWs s :=
      fun s => skipWs_append _ s (allWs_openGap p (d + 1))
    have hL1 : ¬lbrace = 'n' := by decide
    have hL2 : ¬lbrace = 't' := by decide
    have hL3 : ¬lbrace = 'f' := by decide
    have hL4 : ¬lbrace = '"' := by decide
    have hL5 : ¬lbrace = '[' := by decide
    have hL6 : ¬lbrace = '-' := by decide
    have hQ : ¬('"' : Char) = rbrace := by decide
    have harith : Json.size v + JObj.size tl ≤ f := by
      simp only [Json.size, JObj.size] at hs
      omega
    have hmembers :=
      parse_strMembers f k v tl p d (openGap p (d + 1)) rest (allWs_openGap p (d + 1)) hr harith
    rw [parseVal.eq_def, strVal]
    simp only [quoteStr, List.cons_append, List.append_assoc, List.singleton_append,
      List.nil_append] at hmembers ⊢
    simp [hskip, skipWs_cons_not _ (by decide : isWsChar lbrace = false),
      skipWs_cons_not _ (by decide : isWsChar '"' = false), hgap,
      hL1, hL2, hL3, hL4, hL5, hL6, hQ, hmembers]

theorem parse_strItems : ∀ (f : Nat) (v : Json) (tl : JArr) (p : Bool) (d : Nat)
    (w rest : List Char), AllWs w → HeadNd rest → Json.size v + JArr.size tl ≤ f →
    parseItems f (w ++ (strVal p (d + 1) v ++ (strArrTail p d tl ++ rest))) =
      some (JArr.cons v tl, rest)
  | 0, v, tl, _, _, _, _, _, _, hs =>
    absurd hs (by have h1 := size_pos.1 v; have h2 := size_pos.2.1 tl; omega)
  | f + 1, v, tl, p, d, w, rest, hw, hr, hs => by
    have hsv : Json.size v ≤ f := by
      have h1 := size_pos.2.1 tl
      omega
    have hval := parse_strVal f v p (d + 1) w (strArrTail p d tl ++ rest) hw
      (headNd_strArrTail p d tl rest) hsv
    rw [parseItems.eq_def]
    simp only [hval]
    cases tl with
    | nil =>
      have hgap : ∀ s, skipWs (openGap p d ++ s) = skipWs s :=
        fun s => skipWs_append _ s (allWs_openGap p d)
      simp only [strArrTail, List.append_assoc, List.singleton_append, hgap,
        skipWs_cons_not _ (by decide : isWsChar ']' = false)]
    | cons v' tl' =>
      have harith : Json.size v' + JArr.size tl' ≤ f := by
        have h1 := size_pos.1 v
        simp only [JArr.size] at hs
        omega
      have hitems :=
        parse_strItems f v' tl' p d (openGap p (d + 1)) rest (allWs_openGap p (d + 1)) hr harith
      simp only [strArrTail, sepGap, List.cons_append, List.append_assoc,
        skipWs_cons_not _ (by decide : isWsChar ',' = false), hitems]
      rfl

theorem parse_strMembers : ∀ (f : Nat) (k : String) (v : Json) (tl : JObj) (p : Bool) (d : Nat)
    (w rest : List Char), AllWs w → HeadNd rest → Json.size v + JObj.size tl ≤ f →
    parseMembers f
        (w ++ (quoteStr k ++ (colonGap p ++ (strVal p (d + 1) v ++ (strObjTail p d tl ++ rest))))) =
      some (JObj.cons k v tl, rest)
  | 0, _, v, tl, _, _, _, _, _, _, hs =>
    absurd hs (by have h1 := size_pos.1 v; have h2 := size_pos.2.2 tl; omega)
  | f + 1, k, v, tl, p, d, w, rest, hw, hr, hs => by
    have hskip : ∀ s, skipWs (w ++ s) = skipWs s := fun s => skipWs_append w s hw
    have hsv : Json.size v ≤ f := by
      have h1 := size_pos.2.2 tl
      omega
    have hmk : String.mk k.data = k := rfl
    have hval := parse_strVal f v p (d + 1) (if p then [' '] else [])
      (strObjTail p d tl ++ rest) (allWs_spaceIf p) (headNd_strObjTail p d tl rest) hsv
    rw [parseMembers.eq_def]
    simp only [quoteStr, colonGap, List.cons_append, List.append_assoc, List.singleton_append,
      hskip, skipWs_cons_not _ (by decide : isWsChar '"' = false), parseStrAux_escStr,
      List.reverse_nil, List.nil_append, hmk,
      skipWs_cons_not _ (by decide : isWsChar ':' = false), hval]
    cases tl with
    | nil =>
      have hgap : ∀ s, skipWs (openGap p d ++ s) = skipWs s :=
        fun s => skipWs_append _ s (allWs_openGap p d)
      simp only [strObjTail, List.append_assoc, List.singleton_append, hgap,
        skipWs_cons_not _ (by decide : isWsChar rbrace = false)]
      simp [rbrace]
    | cons k' v' tl' =>
      have harith : Json.size v' + JObj.size tl' ≤ f := by
        have h1 := size_pos.1 v
        simp only [JObj.size] at hs
        omega
      have hmembers :=
        parse_strMembers f k' v' tl' p d (openGap p (d + 1)) rest (allWs_openGap p (d + 1)) hr
          harith
      simp only [quoteStr, colonGap, List.cons_append, List.append_assoc,
        List.singleton_append] at hmembers
      simp only [strObjTail, sepGap, quoteStr, colonGap, List.cons_append, List.append_assoc,
        List.singleton_append, skipWs_cons_not _ (by decide : isWsChar ',' = false), hmembers]
      rfl

end

theorem length_natDigits_pos (n : Nat) : 1 ≤ (natDigits n).length := by
  have h := (natDigits_spec n).2.2
  cases hnd : natDigits n with
  | nil => exact absurd hnd h
  | cons c cs => simp

theorem length_intDigits_pos (i : Int) : 1 ≤ (intDigits i).length := by
  rw [intDigits]
  by_cases hi : i < 0
  · simp [hi]
  · simp [hi, length_natDigits_pos]

mutual

theorem size_le_strVal : ∀ (v : Json) (p : Bool) (d : Nat),
    Json.size v ≤ (strVal p d v).length
  | .null, p, d => by simp [strVal, nullChars, Json.size]
  | .bool true, p, d => by simp [strVal, trueChars, Json.size]
  | .bool false, p, d => by simp [strVal, falseChars, Json.size]
  | .num i, p, d => by
    have h := length_intDigits_pos i
    simp only [strVal, Json.size]
    omega
  | .str s, p, d => by simp [strVal, Json.size, quoteStr]
  | .arr .nil, p, d => by simp [strVal, Json.size, JArr.size]
  | .arr (.cons v tl), p, d => by
    have h1 := size_le_strVal v p (d + 1)
    have h2 := size_le_strArrTail tl p d
    simp only [strVal, Json.size, JArr.size, List.length_cons, List.length_append]
    omega
  | .obj .nil, p, d => by simp [strVal, Json.size, JObj.size]
  | .obj (.cons k v tl), p, d => by
    have h1 := size_le_strVal v p (d + 1)
    have h2 := size_le_strObjTail tl p d
    simp only [strVal, Json.size, JObj.size, List.length_cons, List.length_append]
    omega

theorem size_le_strArrTail : ∀ (tl : JArr) (p : Bool) (d : Nat),
    JArr.size tl ≤ (strArrTail p d tl).length
  | .nil, p, d => by simp [strArrTail, JArr.size]
  | .cons v tl, p, d => by
    have h1 := size_le_strVal v p (d + 1)
    have h2 := size_le_strArrTail tl p d
    simp only [strArrTail, sepGap, JArr.size, List.length_cons, List.length_append]
    omega

theorem size_le_strObjTail : ∀ (tl : JObj) (p : Bool) (d : Nat),
    JObj.size tl ≤ (strObjTail p d tl).length
  | .nil, p, d => by simp [strObjTail, JObj.size]
  | .cons k v tl, p, d => by
    have h1 := size_le_strVal v p (d + 1)
    have h2 := size_le_strObjTail tl p d
    simp only [strObjTail, sepGap, quoteStr, colonGap, JObj.size, List.length_cons,
      List.length_append]
    omega

end

/-- Round-trip: parsing the output of either `JSON.stringify` format
recovers the value exactly. -/
theorem jsonParse_stringify (p : Bool) (v : Json) :
    jsonParse (String.mk (strVal p 0 v)) = some v := by
  have hlen : Json.size v ≤ (strVal p 0 v).length + 1 :=
    le_trans (size_le_strVal v p 0) (Nat.le_succ _)
  have h := parse_strVal ((strVal p 0 v).length + 1) v p 0 [] [] allWs_nil headNd_nil hlen
  simp only [List.nil_append, List.append_nil] at h
  rw [jsonParse]
  simp only [String.length, String.data]
  rw [h]
  simp [skipWs]

theorem jsonParse_stringifyCompact (v : Json) : jsonParse (stringifyCompact v) = some v :=
  jsonParse_stringify false v

theorem jsonParse_stringifyPretty (v : Json) : jsonParse (stringifyPretty v) = some v :=
  jsonParse_stringify true v

/-! ## Validator: the zod schema (server lines 55-79)

`geometry`, `feature`, `featureCollection` and `geojsonSchema` model the
zod schemas of the same names, with zod v3 `.parse` semantics:

* `z.object` requires a plain object (not `null`, not an array), checks
  every declared key, collects all issues (shape-definition order), and
  in the default "strip" mode drops undeclared members from the output;
* `z.enum`/`z.literal` check the value exactly;
* `z.any()` never fails and passes a present value through — a missing
  key stays missing in the output;
* `.optional()` allows a missing key (then absent from the output);
* `z.record(z.any())` requires an object and passes it through;
* `z.array(...)` requires an array and validates every element,
  collecting issues with the element index on the path;
* `z.union([a, b])` tries `a` then `b` and reports a single
  `invalid_union` issue when both fail.

Issue messages are abbreviated (the claims depend on the structure —
path and presence — of issues, not zod's exact message strings). -/

/-- A step in a zod issue path: an object key or an array index. -/
inductive PathElem where
  | key : String → PathElem
  | idx : Nat → PathElem
deriving DecidableEq

/-- One zod validation issue: path into the value plus a message. -/
structure Issue where
  path : List PathElem
  message : String
deriving DecidableEq

instance {ε α : Type} [DecidableEq ε] [DecidableEq α] : DecidableEq (Except ε α) := fun a b =>
  match a, b with
  | .ok x, .ok y =>
    if h : x = y then isTrue (by rw [h]) else isFalse (by intro hh; cases hh; exact h rfl)
  | .error x, .error y =>
    if h : x = y then isTrue (by rw [h]) else isFalse (by intro hh; cases hh; exact h rfl)
  | .ok _, .error _ => isFalse (by intro hh; cases hh)
  | .error _, .ok _ => isFalse (by intro hh; cases hh)

/-- The seven geometry kinds of the `z.enum` (server lines 56-64). -/
def geomTypes : List String :=
  ["Point", "LineString", "Polygon", "MultiPoint", "MultiLineString", "MultiPolygon",
    "GeometryCollection"]

/-- The `geometry` schema (lines 55-66): object with `type` in the enum;
`coordinates` is `z.any()` — accepted unconditionally, never required. -/
def geometry (j : Json) : Except (List Issue) Json :=
  match j with
  | .obj o =>
    match o.find? "type" with
    | some (.str t) =>
      if t ∈ geomTypes then
        .ok (.obj (.cons "type" (.str t)
          (match o.find? "coordinates" with
            | some c => .cons "coordinates" c .nil
            | none => .nil)))
      else .error [⟨[.key "type"], "Invalid enum value"⟩]
    | some _ => .error [⟨[.key "type"], "Expected string enum"⟩]
    | none => .error [⟨[.key "type"], "Required"⟩]
  | _ => .error [⟨[], "Expected object"⟩]

/-- The `feature` schema (lines 68-72): literal `type: "Feature"`,
required `geometry`, optional `properties` record. -/
def feature (j : Json) : Except (List Issue) Json :=
  match j with
  | .obj o =>
    let typeIssues : List Issue :=
      match o.find? "type" with
      | some (.str "Feature") => []
      | some _ => [⟨[.key "type"], "Invalid literal value"⟩]
      | none => [⟨[.key "type"], "Required"⟩]
    let geomRes : Except (List Issue) Json :=
      match o.find? "geometry" with
      | some g =>
        match geometry g with
        | .ok g' => .ok g'
        | .error es => .error (es.map fun i => ⟨.key "geometry" :: i.path, i.message⟩)
      | none => .error [⟨[.key "geometry"], "Required"⟩]
    let propsRes : Except (List Issue) (Option Json) :=
      match o.find? "properties" with
      | some (.obj po) => .ok (some (.obj po))
      | some _ => .error [⟨[.key "properties"], "Expected object"⟩]
      | none => .ok none
    match geomRes, propsRes with
    | .ok g', .ok po =>
      if typeIssues.isEmpty then
        .ok (.obj (.cons "type" (.str "Feature") (.cons "geometry" g'
          (match po with
            | some pv => .cons "properties" pv .nil
            | none => .nil))))
      else .error typeIssues
    | .ok _, .error e2 => .error (typeIssues ++ e2)
    | .error e1, .ok _ => .error (typeIssues ++ e1)
    | .error e1, .error e2 => .error (typeIssues ++ e1 ++ e2)
  | _ => .error [⟨[], "Expected object"⟩]

/-- Elements of the `features` array, validated independently with the
element index prefixed to issue paths. -/
def featuresElems : JArr → Nat → Except (List Issue) JArr
  | .nil, _ => .ok .nil
  | .cons v tl, i =>
    match feature v, featuresElems tl (i + 1) with
    | .ok v', .ok tl' => .ok (.cons v' tl')
    | .ok _, .error e2 => .error e2
    | .error e1, .ok _ => .error (e1.map fun a => ⟨.idx i :: a.path, a.message⟩)
    | .error e1, .error e2 => .error ((e1.map fun a => ⟨.idx i :: a.path, a.message⟩) ++ e2)

/-- The `featureCollection` schema (lines 74-77). -/
def featureCollection (j : Json) : Except (List Issue) Json :=
  match j with
  | .obj o =>
    let typeIssues : List Issue :=
      match o.find? "type" with
      | some (.str "FeatureCollection") => []
      | some _ => [⟨[.key "type"], "Invalid literal value"⟩]
      | none => [⟨[.key "type"], "Required"⟩]
    let featRes : Except (List Issue) Json :=
      match o.find? "features" with
      | some (.arr a) =>
        match featuresElems a 0 with
        | .ok a' => .ok (.arr a')
        | .error es => .error (es.map fun i => ⟨.key "features" :: i.path, i.message⟩)
      | some _ => .error [⟨[.key "features"], "Expected array"⟩]
      | none => .error [⟨[.key "features"], "Required"⟩]
    match featRes with
    | .ok fa =>
      if typeIssues.isEmpty then
        .ok (.obj (.cons "type" (.str "FeatureCollection") (.cons "features" fa .nil)))
      else .error typeIssues
    | .error e => .error (typeIssues ++ e)
  | _ => .error [⟨[], "Expected object"⟩]

/-- `geojsonSchema = z.union([featureCollection, feature])` (line 79):
try the collection schema, then the feature schema; a single
`invalid_union` issue when both fail. -/
def geojsonSchema (j : Json) : Except (List Issue) Json :=
  match featureCollection j with
  | .ok v => .ok v
  | .error _ =>
    match feature j with
    | .ok v => .ok v
    | .error _ => .error [⟨[], "Invalid input"⟩]

/-! ## Store: paths and the filesystem (lines 29-32, 85-99, 137-144)

Paths are lists of segments of an absolute normalized path.  `joinPath`
models node's `path.join(base, rel)`: split `rel` on `/`, then resolve
`.`, `..` and empty segments against the (absolute) base, where `..` at
the root is dropped.  The filesystem is an association list from paths
to file contents; writing conses (later entries shadow earlier ones,
like overwriting).  Express percent-decodes route parameters before the
handler runs, so the `:id` value may contain `/` and `.` characters. -/

def splitSlashAux : List Char → List Char → List String
  | [], acc => [String.mk acc.reverse]
  | c :: r, acc =>
    if c = '/' then String.mk acc.reverse :: splitSlashAux r []
    else splitSlashAux r (c :: acc)

/-- Split a relative path on `/`. -/
def splitSlash (s : String) : List String := splitSlashAux s.data []

/-- Resolve `.`/`..`/empty segments (node path normalization for an
absolute path). -/
def normSegs (segs : List String) : List String :=
  List.foldl
    (fun acc s =>
      if s = "" ∨ s = "." then acc
      else if s = ".." then acc.dropLast
      else acc ++ [s])
    [] segs

/-- `path.join(base, rel)` for an absolute, already-normalized base. -/
def joinPath (base : List String) (rel : String) : List String :=
  normSegs (base ++ splitSlash rel)

/-- `DATA_DIR = path.join(__dirname, "data")` (line 30); the server's
directory is the parameter `root`. -/
def DATA_DIR (root : List String) : List String := root ++ ["data"]

/-- `UPLOAD_DIR = path.join(DATA_DIR, "uploads")` (line 31). -/
def UPLOAD_DIR (root : List String) : List String := DATA_DIR root ++ ["uploads"]

/-- The filesystem: association list from paths to file contents. -/
abbrev FS : Type := List (List String × String)

/-- Read a file (first matching entry wins, so a consed write shadows
older content at the same path). -/
def lookupFS (fs : FS) (p : List String) : Option String :=
  match List.find? (fun e => e.1 = p) fs with
  | some e => some e.2
  | none => none

/-! ## Handlers -/

/-- Response bodies: a JSON value (`res.json(...)`), the validation
error body `res.json({error: "Invalid GeoJSON", details: err.issues})`,
or a streamed file (`fs.createReadStream(filePath).pipe(res)`). -/
inductive RespBody where
  | jsonVal : Json → RespBody
  | jsonErrIssues : String → List Issue → RespBody
  | fileStream : String → RespBody
deriving DecidableEq

structure Response where
  status : Nat
  body : RespBody
deriving DecidableEq

/-- `GET /api/geojson/:id` (lines 85-99): the identifier is interpolated
into `${id}.geojson` under `UPLOAD_DIR` with no validation; any `stat`
failure (in particular a missing file) yields `404 {error: "Not found"}`. -/
def getHandler (root : List String) (fs : FS) (id : String) : Response :=
  let filePath := joinPath (UPLOAD_DIR root) (id ++ ".geojson")
  match lookupFS fs filePath with
  | some content => ⟨200, .fileStream content⟩
  | none => ⟨404, .jsonVal (.obj (.cons "error" (.str "Not found") .nil))⟩

/-- An upload request: a multipart file part (`req.file`, content as
UTF-8 text), a JSON body (`req.is("application/json")`, already parsed
by `express.json()` into a JSON value), or any other content type. -/
inductive UploadReq where
  | filePart : String → UploadReq
  | jsonBody : Json → UploadReq
  | other : UploadReq

/-- Lines 106-120: the raw text the handler goes on to `JSON.parse` —
the file part's bytes, or `JSON.stringify(req.body)`; `none` for an
unsupported content type. -/
def rawTextOf : UploadReq → Option String
  | .filePart c => some c
  | .jsonBody b => some (stringifyCompact b)
  | .other => none

/-- Lines 131-149: validate the parsed JSON with `geojsonSchema`, then
persist `JSON.stringify(validated, null, 2)` under a fresh identifier
and answer `201 {id, url, bytes}`.  The fresh uuid is the parameter
`freshId`. -/
def processParsed (root : List String) (fs : FS) (parsed : Json) (freshId : String) :
    FS × Response :=
  match geojsonSchema parsed with
  | .error err => (fs, ⟨400, .jsonErrIssues "Invalid GeoJSON" err⟩)
  | .ok validated =>
    let filePath := joinPath (UPLOAD_DIR root) (freshId ++ ".geojson")
    let pretty := stringifyPretty validated
    ((filePath, pretty) :: fs,
      ⟨201, .jsonVal (.obj (.cons "id" (.str freshId)
        (.cons "url" (.str ("/api/geojson/" ++ freshId))
          (.cons "bytes" (.num (pretty.utf8ByteSize : Int)) .nil))))⟩)

/-- `POST /api/geojson` (lines 102-158) on the path where the write
succeeds: intake, decode, then `processParsed`. -/
def uploadHandler (root : List String) (fs : FS) (req : UploadReq) (freshId : String) :
    FS × Response :=
  match rawTextOf req with
  | none =>
    (fs, ⟨400, .jsonVal (.obj
      (.cons "error" (.str "Send as multipart field `file` OR application/json") .nil))⟩)
  | some rawText =>
    match jsonParse rawText with
    | none => (fs, ⟨400, .jsonVal (.obj (.cons "error" (.str "Invalid JSON") .nil))⟩)
    | some parsed => processParsed root fs parsed freshId

/-- `POST /api/geojson` when `fs.promises.writeFile` (line 141) fails
after `k` characters have been written.  The write targets the final
path directly — there is no temporary file or rename — so POSIX write
semantics can leave a prefix of the data at `${id}.geojson`; the `catch`
(lines 150-157) then answers `500 {error: "Internal error"}` (the error
has no `issues`). -/
def uploadHandlerWriteFail (root : List String) (fs : FS) (req : UploadReq)
    (freshId : String) (k : Nat) : FS × Response :=
  match rawTextOf req with
  | none =>
    (fs, ⟨400, .jsonVal (.obj
      (.cons "error" (.str "Send as multipart field `file` OR application/json") .nil))⟩)
  | some rawText =>
    match jsonParse rawText with
    | none => (fs, ⟨400, .jsonVal (.obj (.cons "error" (.str "Invalid JSON") .nil))⟩)
    | some parsed =>
      match geojsonSchema parsed with
      | .error err => (fs, ⟨400, .jsonErrIssues "Invalid GeoJSON" err⟩)
      | .ok validated =>
        let filePath := joinPath (UPLOAD_DIR root) (freshId ++ ".geojson")
        let pretty := stringifyPretty validated
        ((filePath, String.mk (pretty.data.take k)) :: fs,
          ⟨500, .jsonVal (.obj (.cons "error" (.str "Internal error") .nil))⟩)

/-! ## Schema-declared members

Characterizes values containing only the members the zod schemas
declare: `type`/`coordinates` for a geometry, `type`/`geometry` and
optionally `properties` for a Feature, `type`/`features` for a
FeatureCollection. -/

def geomDeclared : Json → Bool
  | .obj o => JObj.keys o = ["type"] || JObj.keys o = ["type", "coordinates"]
  | _ => false

def featureDeclared : Json → Bool
  | .obj o =>
    (JObj.keys o = ["type", "geometry"] ||
        JObj.keys o = ["type", "geometry", "properties"]) &&
      (match o.find? "geometry" with
        | some g => geomDeclared g
        | none => false)
  | _ => false

def featuresDeclared : JArr → Bool
  | .nil => true
  | .cons v tl => featureDeclared v && featuresDeclared tl

/-- A persisted document contains only declared members. -/
def docDeclared (j : Json) : Bool :=
  featureDeclared j ||
    (match j with
      | .obj o =>
        JObj.keys o = ["type", "features"] &&
          (match o.find? "features" with
            | some (.arr a) => featuresDeclared a
            | _ => false)
      | _ => false)

/-! ## Example documents -/

/-- The spec's bare-geometry rejection example:
`{type:"Polygon", coordinates:[]}`. -/
def polygonDoc : Json :=
  .obj (.cons "type" (.str "Polygon") (.cons "coordinates" (.arr .nil) .nil))

/-- The spec's unknown-geometry rejection example:
`{type:"Feature", geometry:{type:"Triangle", coordinates:[]}}`. -/
def triangleDoc : Json :=
  .obj (.cons "type" (.str "Feature")
    (.cons "geometry"
      (.obj (.cons "type" (.str "Triangle") (.cons "coordinates" (.arr .nil) .nil)))
      .nil))

/-- A valid Feature carrying an undeclared top-level member `bbox`. -/
def bboxDoc : Json :=
  .obj (.cons "type" (.str "Feature")
    (.cons "geometry"
      (.obj (.cons "type" (.str "Point") (.cons "coordinates" (.arr .nil) .nil)))
      (.cons "bbox" (.arr .nil) .nil)))

/-- What the validator narrows `bboxDoc` to: the `bbox` member is gone. -/
def bboxStripped : Json :=
  .obj (.cons "type" (.str "Feature")
    (.cons "geometry"
      (.obj (.cons "type" (.str "Point") (.cons "coordinates" (.arr .nil) .nil)))
      .nil))

/-- A Feature with a Point geometry and arbitrary `coordinates` value. -/
def pointFeature (c : Json) : Json :=
  .obj (.cons "type" (.str "Feature")
    (.cons "geometry" (.obj (.cons "type" (.str "Point") (.cons "coordinates" c .nil)))
      .nil))

/-- A Feature whose geometry has a type but no `coordinates` key at all. -/
def noCoordFeature (t : String) : Json :=
  .obj (.cons "type" (.str "Feature")
    (.cons "geometry" (.obj (.cons "type" (.str t) .nil)) .nil))


/-! ## Validator lemmas -/

theorem geometry_ok {g w : Json} (h : geometry g = .ok w) :
    ∃ og t, g = .obj og ∧ JObj.find? og "type" = some (.str t) ∧ t ∈ geomTypes ∧
      geomDeclared w = true := by
  cases g with
  | obj og =>
    refine ⟨og, ?_⟩
    rw [geometry] at h
    split at h
    next t heq =>
      split at h
      next hmem =>
        cases h
        refine ⟨t, rfl, heq, hmem, ?_⟩
        split <;> simp [geomDeclared, JObj.keys]
      next => cases h
    next => cases h
    next => cases h
  | null => simp [geometry] at h
  | bool b => simp [geometry] at h
  | num n => simp [geometry] at h
  | str s => simp [geometry] at h
  | arr a => simp [geometry] at h

theorem feature_ok {j v : Json} (h : feature j = .ok v) :
    ∃ o, j = .obj o ∧ JObj.find? o "type" = some (.str "Feature") ∧
      (∃ g w, JObj.find? o "geometry" = some g ∧ geometry g = .ok w) ∧
      featureDeclared v = true := by
  cases j with
  | obj o =>
    refine ⟨o, rfl, ?_⟩
    simp only [feature] at h
    split at h
    next g' po heqGeom heqProps =>
      split at h
      next hEmpty =>
        cases h
        constructor
        · -- type literal
          split at hEmpty
          next heqT => exact heqT
          next => simp at hEmpty
          next => simp at hEmpty
        constructor
        · -- geometry present and valid
          split at heqGeom
          next g heqG =>
            split at heqGeom
            next w heqW =>
              cases heqGeom
              exact ⟨g, g', heqG, heqW⟩
            next => cases heqGeom
          next => cases heqGeom
        · -- declared members only
          have hg : geomDeclared g' = true := by
            split at heqGeom
            next g heqG =>
              split at heqGeom
              next w heqW =>
                cases heqGeom
                obtain ⟨og, t, -, -, -, hd⟩ := geometry_ok heqW
                exact hd
              next => cases heqGeom
            next => cases heqGeom
          cases po with
          | none => simp [featureDeclared, JObj.keys, JObj.find?, hg]
          | some pv => simp [featureDeclared, JObj.keys, JObj.find?, hg]
      next => cases h
    next => cases h
    next => cases h
    next => cases h
  | null => simp [feature] at h
  | bool b => simp [feature] at h
  | num n => simp [feature] at h
  | str s => simp [feature] at h
  | arr a => simp [feature] at h

theorem featuresElems_ok : ∀ {a : JArr} {i : Nat} {a' : JArr},
    featuresElems a i = .ok a' → featuresDeclared a' = true
  | .nil, i, a', h => by
    rw [featuresElems] at h
    cases h
    rfl
  | .cons v tl, i, a', h => by
    rw [featuresElems] at h
    split at h
    next v' tl' heq1 heq2 =>
      cases h
      obtain ⟨o, -, -, -, hd⟩ := feature_ok heq1
      have htl := featuresElems_ok heq2
      simp [featuresDeclared, hd, htl]
    next => cases h
    next => cases h
    next => cases h

theorem featureCollection_ok {j v : Json} (h : featureCollection j = .ok v) :
    ∃ o, j = .obj o ∧ JObj.find? o "type" = some (.str "FeatureCollection") ∧
      docDeclared v = true := by
  cases j with
  | obj o =>
    refine ⟨o, rfl, ?_⟩
    simp only [featureCollection] at h
    split at h
    next fa heqF =>
      split at h
      next hEmpty =>
        cases h
        constructor
        · split at hEmpty
          next heqT => exact heqT
          next => simp at hEmpty
          next => simp at hEmpty
        · split at heqF
          next a heqA =>
            split at heqF
            next a' heqE =>
              cases heqF
              have hfd := featuresElems_ok heqE
              simp [docDeclared, featureDeclared, JObj.keys, JObj.find?, hfd]
            next => cases heqF
          next => cases heqF
          next => cases heqF
      next => cases h
    next => cases h
  | null => simp [featureCollection] at h
  | bool b => simp [featureCollection] at h
  | num n => simp [featureCollection] at h
  | str s => simp [featureCollection] at h
  | arr a => simp [featureCollection] at h

theorem geojsonSchema_ok {j v : Json} (h : geojsonSchema j = .ok v) :
    (∃ o, j = .obj o ∧ (JObj.find? o "type" = some (.str "Feature") ∨
        JObj.find? o "type" = some (.str "FeatureCollection"))) ∧
    docDeclared v = true := by
  rw [geojsonSchema] at h
  split at h
  next heqFC =>
    cases h
    obtain ⟨o, rfl, ht, hd⟩ := featureCollection_ok heqFC
    exact ⟨⟨o, rfl, Or.inr ht⟩, hd⟩
  next =>
    split at h
    next heqF =>
      cases h
      obtain ⟨o, rfl, ht, -, hd⟩ := feature_ok heqF
      refine ⟨⟨o, rfl, Or.inl ht⟩, ?_⟩
      simp [docDeclared, hd]
    next => cases h

/-- Acceptance of a minimal Feature with arbitrary coordinates value:
the validator never inspects `coordinates`. -/
theorem geojsonSchema_pointFeature (c : Json) :
    geojsonSchema (pointFeature c) = .ok (pointFeature c) := by
  simp [geojsonSchema, featureCollection, feature, geometry, JObj.find?, geomTypes,
    pointFeature, featuresElems]

/-- Reading back a freshly written file returns its content. -/
theorem lookupFS_cons_self (p : List String) (c : String) (fs : FS) :
    lookupFS ((p, c) :: fs) p = some c := by
  simp [lookupFS, List.find?]

/-- On the JSON-body intake path the decode step always succeeds (the
text is `JSON.stringify` of the already-parsed body), so the handler is
exactly the validate-persist pipeline. -/
theorem uploadHandler_jsonBody_eq (root : List String) (fs : FS) (b : Json) (id : String) :
    uploadHandler root fs (.jsonBody b) id = processParsed root fs b id := by
  simp [uploadHandler, rawTextOf, jsonParse_stringifyCompact]

/-- The persist step on a validated document. -/
theorem processParsed_ok {root : List String} {fs : FS} {parsed : Json} {id : String}
    {v : Json} (h : geojsonSchema parsed = .ok v) :
    processParsed root fs parsed id =
      ((joinPath (UPLOAD_DIR root) (id ++ ".geojson"), stringifyPretty v) :: fs,
        ⟨201, .jsonVal (.obj (.cons "id" (.str id)
          (.cons "url" (.str ("/api/geojson/" ++ id))
            (.cons "bytes" (.num ((stringifyPretty v).utf8ByteSize : Int)) .nil))))⟩) := by
  simp [processParsed, h]

/-! ## The claims -/

/-- C1: the claim says every identifier is validated before forming the
storage path, the path never resolves outside the storage root, and no
filesystem access happens for a malformed identifier.  The code refutes
this: for the (percent-decoded) identifier `../../secret`, the retrieval
handler joins the identifier into the path with no validation, the
resulting path lies outside `UPLOAD_DIR`, and the handler serves the
file found there with a 200. -/
theorem c1_id_unvalidated_path_traversal :
    joinPath (UPLOAD_DIR ["srv", "app"]) ("../../secret" ++ ".geojson") =
        ["srv", "app", "secret.geojson"] ∧
    List.isPrefixOf (UPLOAD_DIR ["srv", "app"]) ["srv", "app", "secret.geojson"] = false ∧
    getHandler ["srv", "app"] [(["srv", "app", "secret.geojson"], "top secret")] "../../secret" =
      ⟨200, .fileStream "top secret"⟩ := by
  decide

/-- C2 (counterexample): the round-trip claim fails as stated.  The
Feature `bboxDoc`, which carries an undeclared `bbox` member, is
accepted by the Validator, but the bytes `get` returns for the
identifier issued by `put` parse back to the schema-narrowed value
`bboxStripped`, which is not structurally equal to the uploaded
document. -/
theorem c2_roundtrip_counterexample :
    geojsonSchema bboxDoc = .ok bboxStripped ∧
    getHandler ["srv"] (uploadHandler ["srv"] [] (.jsonBody bboxDoc) "doc1").1 "doc1" =
      ⟨200, .fileStream (stringifyPretty bboxStripped)⟩ ∧
    jsonParse (stringifyPretty bboxStripped) = some bboxStripped ∧
    bboxStripped ≠ bboxDoc := by
  decide

/-- C2 (amended): for every document D the Validator accepts with
narrowed output V, retrieving the identifier returned by `put(D)` yields
exactly the stored bytes, and those bytes parse back to a value
structurally equal to V — the schema-narrowed projection of D, with
undeclared members removed. -/
theorem c2_roundtrip_narrowed (root : List String) (fs : FS) (D V : Json) (id : String)
    (h : geojsonSchema D = .ok V) :
    getHandler root (uploadHandler root fs (.jsonBody D) id).1 id =
        ⟨200, .fileStream (stringifyPretty V)⟩ ∧
    jsonParse (stringifyPretty V) = some V := by
  constructor
  · rw [uploadHandler_jsonBody_eq, processParsed_ok h]
    simp [getHandler, lookupFS_cons_self]
  · exact jsonParse_stringifyPretty V

/-- C2 (witness): the amended round-trip at the concrete `bboxDoc`. -/
theorem c2_roundtrip_narrowed_witness :
    getHandler ["srv"] (uploadHandler ["srv"] [] (.jsonBody bboxDoc) "doc1").1 "doc1" =
        ⟨200, .fileStream (stringifyPretty bboxStripped)⟩ ∧
    jsonParse (stringifyPretty bboxStripped) = some bboxStripped :=
  c2_roundtrip_narrowed ["srv"] [] bboxDoc bboxStripped "doc1" (by decide)

/-- C3: the claim requires write-then-rename atomicity — a failed write
leaves no record retrievable under the generated identifier and a reader
never observes a truncated document.  The code refutes this: the write
goes through a single `fs.promises.writeFile` at the final path, so when
it fails after 7 characters the handler answers 500 but a truncated
document remains retrievable (200) under the identifier's path. -/
theorem c3_partial_write_leaves_truncated_record :
    (uploadHandlerWriteFail [] [] (.jsonBody (pointFeature (.arr .nil))) "doc3" 7).2 =
        ⟨500, .jsonVal (.obj (.cons "error" (.str "Internal error") .nil))⟩ ∧
    getHandler []
        (uploadHandlerWriteFail [] [] (.jsonBody (pointFeature (.arr .nil))) "doc3" 7).1
        "doc3" =
      ⟨200, .fileStream
        (String.mk ((stringifyPretty (pointFeature (.arr .nil))).data.take 7))⟩ ∧
    String.mk ((stringifyPretty (pointFeature (.arr .nil))).data.take 7) ≠
      stringifyPretty (pointFeature (.arr .nil)) := by
  decide

/-- C4: whenever the parsed JSON of an upload fails validation, the
handler answers 400 with the structured violation list and the
filesystem is unchanged — no record is created. -/
theorem c4_validation_error_400_no_write (root : List String) (fs : FS) (req : UploadReq)
    (id raw : String) (j : Json) (e : List Issue)
    (hraw : rawTextOf req = some raw) (hj : jsonParse raw = some j)
    (he : geojsonSchema j = .error e) :
    uploadHandler root fs req id = (fs, ⟨400, .jsonErrIssues "Invalid GeoJSON" e⟩) := by
  simp [uploadHandler, hraw, hj, processParsed, he]

/-- C4 (witness): a multipart upload of `[1]` fails validation with the
union issue, answering 400 and writing nothing. -/
theorem c4_validation_error_400_no_write_witness :
    uploadHandler [] [] (.filePart "[1]") "w1" =
      ([], ⟨400, .jsonErrIssues "Invalid GeoJSON" [⟨[], "Invalid input"⟩]⟩) :=
  c4_validation_error_400_no_write [] [] (.filePart "[1]") "w1" "[1]"
    (.arr (.cons (.num 1) .nil)) [⟨[], "Invalid input"⟩] rfl (by decide) (by decide)

/-- C5: the Validator accepts a top-level value only if it is an object
whose `type` is literally `"Feature"` or `"FeatureCollection"`; the bare
geometry `{type:"Polygon", coordinates:[]}`-style value fails validation,
the handler answers 400, and no record is created (filesystem
unchanged). -/
theorem c5_top_level_feature_or_collection_only :
    (∀ j v, geojsonSchema j = .ok v →
      ∃ o, j = .obj o ∧ (JObj.find? o "type" = some (.str "Feature") ∨
          JObj.find? o "type" = some (.str "FeatureCollection"))) ∧
    geojsonSchema polygonDoc = .error [⟨[], "Invalid input"⟩] ∧
    uploadHandler [] [] (.jsonBody polygonDoc) "p1" =
      ([], ⟨400, .jsonErrIssues "Invalid GeoJSON" [⟨[], "Invalid input"⟩]⟩) := by
  refine ⟨fun j v h => (geojsonSchema_ok h).1, by decide, by decide⟩

/-- C5 (witness): the accepted `bboxDoc` indeed has the Feature shape. -/
theorem c5_top_level_feature_or_collection_only_witness :
    ∃ o, bboxDoc = .obj o ∧ (JObj.find? o "type" = some (.str "Feature") ∨
        JObj.find? o "type" = some (.str "FeatureCollection")) :=
  c5_top_level_feature_or_collection_only.1 bboxDoc bboxStripped (by decide)

/-- C6: a Feature passes validation only if its `geometry` member is an
object whose `type` is one of the seven enumerated kinds; the `Triangle`
example fails validation; and `coordinates` is accepted unconditionally
(any JSON value). -/
theorem c6_geometry_enum_coordinates_unchecked :
    (∀ j v, feature j = .ok v →
      ∃ o g w, j = .obj o ∧ JObj.find? o "geometry" = some g ∧ geometry g = .ok w ∧
        ∃ og t, g = .obj og ∧ JObj.find? og "type" = some (.str t) ∧ t ∈ geomTypes) ∧
    geojsonSchema triangleDoc = .error [⟨[], "Invalid input"⟩] ∧
    (∀ c : Json, geojsonSchema (pointFeature c) = .ok (pointFeature c)) := by
  refine ⟨fun j v h => ?_, by decide, geojsonSchema_pointFeature⟩
  obtain ⟨o, rfl, -, ⟨g, w, hg, hw⟩, -⟩ := feature_ok h
  obtain ⟨og, t, rfl, ht, hmem, -⟩ := geometry_ok hw
  exact ⟨o, _, w, rfl, hg, hw, og, t, rfl, ht, hmem⟩

/-- C6 (witness): the accepted `bboxDoc`'s geometry has an enumerated
type, and a Feature whose coordinates value is the bare number 42 is
accepted. -/
theorem c6_geometry_enum_coordinates_unchecked_witness :
    (∃ o g w, bboxDoc = .obj o ∧ JObj.find? o "geometry" = some g ∧ geometry g = .ok w ∧
        ∃ og t, g = .obj og ∧ JObj.find? og "type" = some (.str t) ∧ t ∈ geomTypes) ∧
    geojsonSchema (pointFeature (.num 42)) = .ok (pointFeature (.num 42)) :=
  ⟨c6_geometry_enum_coordinates_unchecked.1 bboxDoc bboxStripped (by decide),
    c6_geometry_enum_coordinates_unchecked.2.2 (.num 42)⟩

/-- C7: for every identifier whose derived path has no record in the
filesystem, retrieval answers `404 {error: "Not found"}`-style body and
in particular never a 500. -/
theorem c7_unknown_identifier_404_never_500 (root : List String) (fs : FS) (id : String)
    (h : lookupFS fs (joinPath (UPLOAD_DIR root) (id ++ ".geojson")) = none) :
    getHandler root fs id =
        ⟨404, .jsonVal (.obj (.cons "error" (.str "Not found") .nil))⟩ ∧
    (getHandler root fs id).status ≠ 500 := by
  refine ⟨?_, ?_⟩ <;> simp [getHandler, h]

/-- C7 (witness): a never-issued identifier on an empty store. -/
theorem c7_unknown_identifier_404_never_500_witness :
    getHandler [] [] "9f3c2a1e-freshly-generated" =
        ⟨404, .jsonVal (.obj (.cons "error" (.str "Not found") .nil))⟩ ∧
    (getHandler [] [] "9f3c2a1e-freshly-generated").status ≠ 500 :=
  c7_unknown_identifier_404_never_500 [] [] "9f3c2a1e-freshly-generated" (by decide)

/-- C8: for every accepted upload, what is persisted is the validator's
narrowed output, and that output contains only schema-declared members
(`type`/`geometry`/`properties` for a Feature, `type`/`features` for a
FeatureCollection, `type`/`coordinates` for a geometry) — undeclared
members such as a Feature-level `id` or `bbox` are dropped. -/
theorem c8_persisted_value_only_declared_members (root : List String) (fs : FS) (b : Json)
    (id : String) (v : Json) (h : geojsonSchema b = .ok v) :
    uploadHandler root fs (.jsonBody b) id =
      ((joinPath (UPLOAD_DIR root) (id ++ ".geojson"), stringifyPretty v) :: fs,
        ⟨201, .jsonVal (.obj (.cons "id" (.str id)
          (.cons "url" (.str ("/api/geojson/" ++ id))
            (.cons "bytes" (.num ((stringifyPretty v).utf8ByteSize : Int)) .nil))))⟩) ∧
    docDeclared v = true := by
  refine ⟨?_, (geojsonSchema_ok h).2⟩
  rw [uploadHandler_jsonBody_eq, processParsed_ok h]

/-- C8 (witness): uploading `bboxDoc` (which carries an undeclared
`bbox`) persists exactly `bboxStripped`, whose members are all
declared. -/
theorem c8_persisted_value_only_declared_members_witness :
    uploadHandler ["srv"] [] (.jsonBody bboxDoc) "doc8" =
      ((joinPath (UPLOAD_DIR ["srv"]) ("doc8" ++ ".geojson"),
          stringifyPretty bboxStripped) :: [],
        ⟨201, .jsonVal (.obj (.cons "id" (.str "doc8")
          (.cons "url" (.str ("/api/geojson/" ++ "doc8"))
            (.cons "bytes" (.num ((stringifyPretty bboxStripped).utf8ByteSize : Int))
              .nil))))⟩) ∧
    docDeclared bboxStripped = true :=
  c8_persisted_value_only_declared_members ["srv"] [] bboxDoc "doc8" bboxStripped (by decide)

/-- C9: a Feature whose geometry has a valid enumerated type and no
`coordinates` key at all still passes validation (and is returned
unchanged). -/
theorem c9_geometry_without_coordinates_accepted (t : String) (h : t ∈ geomTypes) :
    geojsonSchema (noCoordFeature t) = .ok (noCoordFeature t) := by
  simp [geojsonSchema, featureCollection, feature, geometry, JObj.find?, noCoordFeature, h]

/-- C9 (witness): the Point geometry with no coordinates key. -/
theorem c9_geometry_without_coordinates_accepted_witness :
    geojsonSchema (noCoordFeature "Point") = .ok (noCoordFeature "Point") :=
  c9_geometry_without_coordinates_accepted "Point" (by decide)

/-- C10: on the `application/json` body path the JSON decode-failure
branch (400 "Invalid JSON") is unreachable: the handler parses the
re-serialization of the already-parsed body, which always succeeds, so
the handler equals the validate-persist pipeline applied directly to
the body. -/
theorem c10_json_body_decode_branch_unreachable (root : List String) (fs : FS) (b : Json)
    (id : String) :
    uploadHandler root fs (.jsonBody b) id = processParsed root fs b id := by
  simp [uploadHandler, rawTextOf, jsonParse_stringifyCompact]

end CesiumGeojson
